import Mathlib

/-!
Verification of the Slide Audio Recorder (`src/config.py`, `src/file_manager.py`,
`src/audio_recorder.py`, `src/main.py`) against its natural-language specification.

The filesystem state manipulated by `FileManager` is modelled as an association
list from file names (lists of characters) to file contents (lists of bytes):
the flat output directory.  Paths are represented by the file name inside the
output directory (the code only ever touches `DEFAULT_OUTPUT_DIR / name`).
Python's `int()` / `str.split` / `pathlib.Path.stem` / glob matching are
embedded as executable functions on character lists.
-/

set_option maxRecDepth 4000

/-- Character for the decimal digit `n` (`n < 10`), as produced by Python's
decimal formatting. -/
def digitChar (n : Nat) : Char := Char.ofNat (48 + n)

/-- Numeric value of a decimal digit character. -/
def charVal (c : Char) : Nat := c.toNat - 48

/-- Little-endian decimal digit list of `n`, with explicit fuel so that the
definition is structurally recursive (the fuel `n + 1` always suffices). -/
def natDigitsAux : Nat → Nat → List Char
  | 0, _ => []
  | fuel + 1, n =>
    if n < 10 then [digitChar n]
    else digitChar (n % 10) :: natDigitsAux fuel (n / 10)

/-- Decimal digit string of `n`, most significant digit first
(the digits written by Python's `'{:d}'` formatting). -/
def natDigits (n : Nat) : List Char := (natDigitsAux (n + 1) n).reverse

/-- Value of a big-endian decimal digit string. -/
def digitsVal (cs : List Char) : Nat := cs.foldl (fun a c => 10 * a + charVal c) 0

/-- Value of a little-endian decimal digit string (proof helper). -/
def valRev : List Char → Nat
  | [] => 0
  | c :: cs => charVal c + 10 * valRev cs

/-- Zero-padding of `'{:03d}'.format(n)` for a natural `n`: pad the decimal
digits with leading `'0'` characters to a minimum width of 3. -/
def pad3 (n : Nat) : List Char :=
  List.replicate (3 - (natDigits n).length) '0' ++ natDigits n

/-- Whitespace stripping performed by Python's `int()` before parsing
(`' 12 '` parses to `12`). -/
def pyTrim (cs : List Char) : List Char :=
  ((cs.dropWhile Char.isWhitespace).reverse.dropWhile Char.isWhitespace).reverse

/-- Parse an unsigned run of decimal digits, as the digit part of Python's
`int()`; `none` models a raised `ValueError`.  (Underscore digit-group
separators accepted by `int()` are not modelled: no call site in this
program can produce them from a matched file name.) -/
def pyIntAux (cs : List Char) : Option Int :=
  if cs ≠ [] ∧ cs.all Char.isDigit then some ((digitsVal cs : Int)) else none

/-- Python's `int(s)` on a string: strip whitespace, optional sign, decimal
digits; `none` models a raised `ValueError`. -/
def pyInt (cs : List Char) : Option Int :=
  match pyTrim cs with
  | [] => none
  | c :: ds =>
    if c = '-' then (pyIntAux ds).map (fun v => -v)
    else if c = '+' then pyIntAux ds
    else pyIntAux (c :: ds)

/-- Python's `str.split(sep)` for a single-character separator: split at every
occurrence, keeping empty pieces (`''.split('_') == ['']`). -/
def splitOnChar (sep : Char) : List Char → List (List Char)
  | [] => [[]]
  | c :: rest =>
    if c = sep then [] :: splitOnChar sep rest
    else
      match splitOnChar sep rest with
      | [] => [[c]]
      | piece :: pieces => (c :: piece) :: pieces

/-- Index of the last `'.'` in a character list (Python's `name.rfind('.')`,
with `none` for the `-1` not-found result). -/
def rfindDot : List Char → Option Nat
  | [] => none
  | c :: rest =>
    match rfindDot rest with
    | some i => some (i + 1)
    | none => if c = '.' then some 0 else none

/-- `pathlib.PurePath.stem` on a plain file name: the name with its suffix
removed, where the suffix starts at the last `'.'` provided that dot is
neither the first nor the last character. -/
def pyStem (cs : List Char) : List Char :=
  match rfindDot cs with
  | some i => if 0 < i ∧ i + 1 < cs.length then cs.take i else cs
  | none => cs

/-- File contents, as a byte list. -/
abbrev Blob := List Nat

/-- A file name inside the flat output directory. -/
abbrev Name := List Char

/-- State of the output directory: an association list from file name to file
contents.  A real directory has pairwise-distinct names; operations that
need this take it as a hypothesis. -/
abbrev Dir := List (Name × Blob)

/-- Names of the files in the directory. -/
def dirNames (d : Dir) : List Name := d.map Prod.fst

/-- Contents of the file called `nm`, if present. -/
def lookupFile : Dir → Name → Option Blob
  | [], _ => none
  | (nm, b) :: rest, target => if nm = target then some b else lookupFile rest target

/-- Does a file called `nm` exist (`Path.exists`)? -/
def fileExists (d : Dir) (nm : Name) : Bool := (lookupFile d nm).isSome

/-- Remove the file called `nm` (`os.remove`). -/
def removeFile : Dir → Name → Dir
  | [], _ => []
  | e :: rest, nm => if e.1 = nm then removeFile rest nm else e :: removeFile rest nm

/-- Create or overwrite the file called `nm` (`open(path, 'wb')` /
`shutil.copy2` destination). -/
def writeFile (d : Dir) (nm : Name) (b : Blob) : Dir :=
  (nm, b) :: removeFile d nm

/-- `config.FILENAME_PATTERN.format(n)`, i.e. `slide_{:03d}.mp3`: the name of
the recording file for slide `n`. -/
def recordingName (n : Nat) : Name := "slide_".data ++ pad3 n ++ ".mp3".data

/-- `config.get_recording_path`: the path of slide `n`'s recording inside the
output directory (the directory prefix is implicit in the `Dir` model). -/
def get_recording_path (n : Nat) : Name := recordingName n

/-- The backup file name `slide_{n:03d}_backup.mp3` built by
`FileManager.backup_recording`. -/
def backupName (n : Nat) : Name := "slide_".data ++ pad3 n ++ "_backup.mp3".data

/-- Does `name` match the glob pattern `slide_*.mp3` used by
`get_recording_list` and `get_next_slide_number`?  Equivalent to
`∃ mid, name = "slide_" ++ mid ++ ".mp3"`. -/
def globSlideMp3 (name : Name) : Bool :=
  "slide_".data.isPrefixOf name && ".mp3".data.isSuffixOf name && decide (10 ≤ name.length)

/-- The number a matched file contributes to the listing:
`int(f.stem.split('_')[1])`, with `none` for a raised exception. -/
def parseSlideNum (name : Name) : Option Int :=
  match (splitOnChar '_' (pyStem name)).get? 1 with
  | none => none
  | some piece => pyInt piece

/-- The list comprehension `[int(f.stem.split('_')[1]) for f in files]`:
all parsed numbers, or `none` if any element raises. -/
def parseAll : List Name → Option (List Int)
  | [] => some []
  | nm :: rest =>
    match parseSlideNum nm, parseAll rest with
    | some v, some vs => some (v :: vs)
    | _, _ => none

/-- Python's `max` on a list of ints (the code only calls it on nonempty
lists; the `[]` case is unreachable there). -/
def listMaxI : List Int → Int
  | [] => 0
  | x :: xs => xs.foldl max x

/-- `FileManager.get_recording_list`: glob `slide_*.mp3` over the output
directory, parse the number embedded in each match, sort ascending. -/
def get_recording_list (d : Dir) : Option (List Int) :=
  (parseAll ((dirNames d).filter globSlideMp3)).map
    (fun ns => List.insertionSort (fun a b => a ≤ b) ns)

/-- `config.get_next_slide_number` (delegated to by
`FileManager.get_next_slide_number`): 1 if no file matches the glob,
otherwise 1 + the maximum parsed number among the matches. -/
def get_next_slide_number (d : Dir) : Option Int :=
  if ((dirNames d).filter globSlideMp3).isEmpty then some 1
  else
    match parseAll ((dirNames d).filter globSlideMp3) with
    | some ns => some (listMaxI ns + 1)
    | none => none

/-- `FileManager.delete_recording`: remove the file if it exists, reporting
whether it did (`os.remove` with `FileNotFoundError` caught). -/
def delete_recording (d : Dir) (slide_number : Nat) : Dir × Bool :=
  let p := get_recording_path slide_number
  if fileExists d p then (removeFile d p, true) else (d, false)

/-- `FileManager.recording_exists`. -/
def recording_exists (d : Dir) (slide_number : Nat) : Bool :=
  fileExists d (get_recording_path slide_number)

/-- `FileManager.backup_recording`: if the source recording exists, copy its
bytes to the sibling `_backup` name (overwriting) and return that path;
otherwise do nothing and return `none`. -/
def backup_recording (d : Dir) (slide_number : Nat) : Dir × Option Name :=
  match lookupFile d (get_recording_path slide_number) with
  | none => (d, none)
  | some content => (writeFile d (backupName slide_number) content, some (backupName slide_number))

/-- The middle piece of a name of shape `slide_<mid>.mp3`: drop the 6-character
prefix and the 4-character suffix (proof helper). -/
def midOf (nm : Name) : Name := (nm.drop 6).take (nm.length - 10)

/-- Decidable test for `∃ k, nm = recordingName k`: re-render the parsed middle
and compare (proof helper; see `isRecordingName_iff`). -/
def isRecordingName (nm : Name) : Bool :=
  decide (nm = recordingName (digitsVal (midOf nm)))

/-- Does the directory contain any recording file `slide_{NNN}.mp3`
(proof helper)? -/
def hasRecording (d : Dir) : Bool := (dirNames d).any isRecordingName

/-- The process-wide mutable settings of `src/config.py` that the modelled
code reads or writes, with their initial values from that file. -/
structure Config where
  SAMPLE_RATE : Nat := 44100
  CHANNELS : Nat := 1
  CHUNK_SIZE : Nat := 1024
  BITRATE : String := "192k"
  DEFAULT_OUTPUT_DIR : String := "recordings"
  DEFAULT_INPUT_DEVICE : Option Nat := none
  MAX_RECORDING_TIME : Nat := 300
  MIN_RECORDING_TIME : Nat := 1
  deriving DecidableEq, Repr

/-- The external encoder (the pydub `AudioSegment.export` pipeline used by
`convert_to_mp3`), abstracted as a function from the configured bitrate and
the WAV bytes to the MP3 bytes; `none` models a raised exception. -/
abbrev EncodeFn := String → Blob → Option Blob

/-- `AudioRecorder.convert_to_mp3`: encode at `config.BITRATE`; on any
encoder exception, fall back to returning the WAV data unchanged. -/
def convert_to_mp3 (cfg : Config) (enc : EncodeFn) (wav_data : Blob) : Blob :=
  match enc cfg.BITRATE wav_data with
  | some mp3_data => mp3_data
  | none => wav_data

/-- `FileManager.save_recording`: convert to MP3, write the bytes to the path
for `slide_number`, return that path. -/
def save_recording (cfg : Config) (enc : EncodeFn) (d : Dir) (audio_data : Blob)
    (slide_number : Nat) : Dir × Name :=
  let mp3_data := convert_to_mp3 cfg enc audio_data
  let output_path := get_recording_path slide_number
  (writeFile d output_path mp3_data, output_path)

/-- `SlideRecorder.__init__` (the part that mutates the settings): optional
custom output directory, then the audio-quality → bitrate mapping. -/
def SlideRecorder_init (cfg : Config) (output_dir : Option String)
    (audio_quality : String) : Config :=
  let cfg1 :=
    match output_dir with
    | some dirName => { cfg with DEFAULT_OUTPUT_DIR := dirName }
    | none => cfg
  if audio_quality = "low" then { cfg1 with BITRATE := "64k" }
  else if audio_quality = "medium" then { cfg1 with BITRATE := "96k" }
  else { cfg1 with BITRATE := "128k" }

/-- The default `audio_quality` of `run_recorder.run` and `main.main`. -/
def defaultAudioQuality : String := "high"

/-- `pyaudio.paInt16`. -/
def paInt16 : Nat := 8

/-- The keyword arguments `AudioRecorder.start_recording` passes to
`pyaudio.open` (the `stream_callback=None` blocking-mode marker carries no
state and is omitted).  `input_device_index` is a parameter `pyaudio.open`
accepts; `none` means it was not passed, so the system default device is
used. -/
structure StreamParams where
  format : Nat
  channels : Nat
  rate : Nat
  input : Bool
  frames_per_buffer : Nat
  input_device_index : Option Nat
  deriving DecidableEq, Repr

/-- The parameters of the `pyaudio.open` call in
`AudioRecorder.start_recording`, as a function of the current settings. -/
def openParams (cfg : Config) : StreamParams :=
  { format := paInt16
    channels := cfg.CHANNELS
    rate := cfg.SAMPLE_RATE
    input := true
    frames_per_buffer := cfg.CHUNK_SIZE
    input_device_index := none }

/-- The mutable state of an `AudioRecorder`: whether the PyAudio handle and
the input stream object are present, the frame buffer, the recording flag
and the session start time (an abstract clock value). -/
structure RecState where
  paHandle : Bool
  stream : Bool
  frames : List Blob
  recording : Bool
  start_time : Nat
  deriving DecidableEq, Repr

/-- State after `AudioRecorder.__init__` (which runs `_initialize_pyaudio`). -/
def initState : RecState :=
  { paHandle := true, stream := false, frames := [], recording := false, start_time := 0 }

/-- `AudioRecorder._cleanup_stream`: release just the stream. -/
def cleanupStream (s : RecState) : RecState := { s with stream := false }

/-- `AudioRecorder.cleanup`: release the stream and terminate PyAudio. -/
def cleanup (s : RecState) : RecState := { s with stream := false, paHandle := false }

/-- `AudioRecorder._initialize_pyaudio`: close any stream and rebuild the
device handle. -/
def initializePyaudio (s : RecState) : RecState := { s with stream := false, paHandle := true }

/-- `AudioRecorder.start_recording`.  `initOk` is whether the
`_initialize_pyaudio` call succeeds, `openOk` whether the `pyaudio.open`
call succeeds and `now` the current clock.  A raised exception on either is
caught by the method's handler, which runs `cleanup` and re-raises; note the
frame buffer is reset only after `_initialize_pyaudio` has succeeded, so a
failed reinitialization leaves the old frames in place.  Returns the new
state, whether the call returned normally, and the parameters passed to
`pyaudio.open` (`none` when the call is never reached). -/
def start_recording (cfg : Config) (s : RecState) (initOk openOk : Bool) (now : Nat) :
    RecState × Bool × Option StreamParams :=
  if s.recording = true then (s, true, none)
  else if initOk = false then (cleanup s, false, none)
  else
    let s1 := initializePyaudio s
    let s2 := { s1 with frames := [] }
    if openOk then
      ({ s2 with stream := true, recording := true, start_time := now }, true,
        some (openParams cfg))
    else (cleanup s2, false, some (openParams cfg))

/-- `AudioRecorder.record_chunk`.  `readOk` is whether `stream.read`
succeeds, `data` the chunk it returns, `now` the current clock.  Returns the
new state and the continue flag. -/
def record_chunk (cfg : Config) (s : RecState) (readOk : Bool) (data : Blob) (now : Nat) :
    RecState × Bool :=
  if s.recording = false ∨ s.stream = false then (s, false)
  else if readOk then
    ({ s with frames := s.frames ++ [data] },
      decide ((now - s.start_time) ≤ cfg.MAX_RECORDING_TIME))
  else (cleanup s, false)

/-- The WAV container built by `stop_recording` from the frame buffer; the
fixed header the `wave` module writes is not byte-modelled, only the payload
(the concatenated frames). -/
def wavEncode (frames : List Blob) : Blob := frames.join

/-- `AudioRecorder.stop_recording`: early return `(b'', 0.0)` when not
recording; otherwise clear the flag, release the stream, and return the WAV
blob of the accumulated frames plus the elapsed duration. -/
def stop_recording (s : RecState) (now : Nat) : RecState × Blob × Nat :=
  if s.recording = false then (s, [], 0)
  else
    let duration := now - s.start_time
    let s1 := { s with recording := false, stream := false }
    (cleanupStream s1, wavEncode s.frames, duration)

/-- `AudioRecorder.set_input_device`.  `devInfo` abstracts
`pyaudio.get_device_info_by_index`, giving the `maxInputChannels` of an
index or `none` for a raised out-of-range error. -/
def set_input_device (cfg : Config) (devInfo : Nat → Option Nat) (device_index : Nat) :
    Config × Bool :=
  match devInfo device_index with
  | some maxInputChannels =>
    if 0 < maxInputChannels then
      ({ cfg with DEFAULT_INPUT_DEVICE := some device_index }, true)
    else (cfg, false)
  | none => (cfg, false)

/-! Theorems. -/

theorem charVal_digitChar {n : Nat} (h : n < 10) : charVal (digitChar n) = n := by
  interval_cases n <;> decide

theorem isDigit_digitChar {n : Nat} (h : n < 10) : (digitChar n).isDigit = true := by
  interval_cases n <;> decide

theorem valRev_natDigitsAux : ∀ fuel n, n < fuel → valRev (natDigitsAux fuel n) = n := by
  intro fuel
  induction fuel with
  | zero => intro n h; omega
  | succ fuel ih =>
    intro n h
    unfold natDigitsAux
    by_cases h10 : n < 10
    · simp [h10, valRev, charVal_digitChar h10]
    · have hdiv : n / 10 < n := Nat.div_lt_self (by omega) (by omega)
      have hrec := ih (n / 10) (by omega)
      simp [h10, valRev, hrec, charVal_digitChar (Nat.mod_lt n (by omega))]
      omega

theorem digitsVal_reverse : ∀ cs : List Char, digitsVal cs.reverse = valRev cs := by
  intro cs
  induction cs with
  | nil => rfl
  | cons c cs ih =>
    simp only [List.reverse_cons, valRev, digitsVal, List.foldl_append, List.foldl_cons,
      List.foldl_nil]
    simp only [digitsVal] at ih
    omega

theorem digitsVal_natDigits (n : Nat) : digitsVal (natDigits n) = n := by
  unfold natDigits
  rw [digitsVal_reverse]
  exact valRev_natDigitsAux (n + 1) n (Nat.lt_succ_self n)

theorem mem_natDigitsAux_isDigit :
    ∀ fuel n c, c ∈ natDigitsAux fuel n → c.isDigit = true := by
  intro fuel
  induction fuel with
  | zero => intro n c h; simp [natDigitsAux] at h
  | succ fuel ih =>
    intro n c h
    unfold natDigitsAux at h
    by_cases h10 : n < 10
    · simp [h10] at h
      exact h ▸ isDigit_digitChar h10
    · simp [h10] at h
      rcases h with h | h
      · exact h ▸ isDigit_digitChar (Nat.mod_lt n (by omega))
      · exact ih _ _ h

theorem mem_natDigits_isDigit {n : Nat} {c : Char} (h : c ∈ natDigits n) :
    c.isDigit = true := by
  unfold natDigits at h
  exact mem_natDigitsAux_isDigit _ _ _ (List.mem_reverse.1 h)

theorem natDigitsAux_ne_nil (fuel n : Nat) (h : 0 < fuel) : natDigitsAux fuel n ≠ [] := by
  cases fuel with
  | zero => omega
  | succ fuel =>
    unfold natDigitsAux
    by_cases h10 : n < 10 <;> simp [h10]

theorem natDigits_ne_nil (n : Nat) : natDigits n ≠ [] := by
  unfold natDigits
  simp only [ne_eq, List.reverse_eq_nil_iff]
  exact natDigitsAux_ne_nil _ _ (Nat.succ_pos n)

theorem mem_pad3_isDigit {n : Nat} {c : Char} (h : c ∈ pad3 n) : c.isDigit = true := by
  unfold pad3 at h
  rcases List.mem_append.1 h with h | h
  · rw [List.eq_of_mem_replicate h]; decide
  · exact mem_natDigits_isDigit h

theorem pad3_ne_nil (n : Nat) : pad3 n ≠ [] := by
  unfold pad3
  intro h
  exact natDigits_ne_nil n (List.append_eq_nil.1 h).2

theorem digitsVal_replicate_zero (j : Nat) (l : List Char) :
    digitsVal (List.replicate j '0' ++ l) = digitsVal l := by
  induction j with
  | zero => rfl
  | succ j ih =>
    simp only [List.replicate_succ, List.cons_append, digitsVal, List.foldl_cons]
    have : (10 * 0 + charVal '0') = 0 := by decide
    rw [this]
    exact ih

theorem digitsVal_pad3 (n : Nat) : digitsVal (pad3 n) = n := by
  unfold pad3
  rw [digitsVal_replicate_zero, digitsVal_natDigits]

theorem dropWhile_eq_self_of_not_head {p : Char → Bool} :
    ∀ l : List Char, (∀ c ∈ l, p c = false) → l.dropWhile p = l := by
  intro l h
  cases l with
  | nil => rfl
  | cons c cs =>
    rw [List.dropWhile_cons_of_neg]
    simp [h c (List.mem_cons_self c cs)]

theorem pyTrim_of_digits {cs : List Char} (h : ∀ c ∈ cs, c.isDigit = true) :
    pyTrim cs = cs := by
  unfold pyTrim
  have hws : ∀ c ∈ cs, c.isWhitespace = false := by
    intro c hc
    have hd := h c hc
    cases hw : c.isWhitespace
    · rfl
    · exfalso
      have : ((c = ' ' ∨ c = '\t') ∨ c = '\r') ∨ c = '\n' := by
        simpa [Char.isWhitespace] using hw
      rcases this with ((rfl | rfl) | rfl) | rfl <;> simp [Char.isDigit] at hd
  rw [dropWhile_eq_self_of_not_head cs hws]
  rw [dropWhile_eq_self_of_not_head _ (by intro c hc; exact hws c (List.mem_reverse.1 hc))]
  exact List.reverse_reverse cs

theorem pyInt_digits {cs : List Char} (hne : cs ≠ []) (h : ∀ c ∈ cs, c.isDigit = true) :
    pyInt cs = some ((digitsVal cs : Int)) := by
  unfold pyInt
  rw [pyTrim_of_digits h]
  cases cs with
  | nil => exact absurd rfl hne
  | cons c ds =>
    have hc : c.isDigit = true := h c (List.mem_cons_self c ds)
    have hcm : c ≠ '-' := by rintro rfl; simp [Char.isDigit] at hc
    have hcp : c ≠ '+' := by rintro rfl; simp [Char.isDigit] at hc
    simp only [hcm, hcp, if_false]
    unfold pyIntAux
    rw [if_pos ⟨by simp, by simpa [List.all_eq_true] using h⟩]

theorem pyInt_pad3 (n : Nat) : pyInt (pad3 n) = some (n : Int) := by
  rw [pyInt_digits (pad3_ne_nil n) (fun c hc => mem_pad3_isDigit hc), digitsVal_pad3]

theorem isDigit_ne_underscore {c : Char} (h : c.isDigit = true) : c ≠ '_' := by
  rintro rfl; exact absurd h (by decide)

theorem isDigit_ne_dot {c : Char} (h : c.isDigit = true) : c ≠ '.' := by
  rintro rfl; exact absurd h (by decide)

theorem glob_recordingName (k : Nat) : globSlideMp3 (recordingName k) = true := by
  unfold globSlideMp3 recordingName
  simp only [Bool.and_eq_true]
  refine ⟨⟨?_, ?_⟩, ?_⟩
  · rw [List.isPrefixOf_iff_prefix]
    exact List.prefix_append _ _
  · rw [List.isSuffixOf_iff_suffix]
    exact List.suffix_append _ _
  · rw [decide_eq_true_eq]
    simp only [List.length_append, List.length_cons, List.length_nil]
    omega

theorem rfindDot_append {B : List Char} {i : Nat} (hB : rfindDot B = some i) :
    ∀ A : List Char, rfindDot (A ++ B) = some (A.length + i) := by
  intro A
  induction A with
  | nil => simpa using hB
  | cons c A ih =>
    show rfindDot (c :: (A ++ B)) = some ((c :: A).length + i)
    unfold rfindDot
    rw [ih]
    simp only [List.length_cons]
    congr 1
    omega

theorem pyStem_eq {cs : List Char} {i : Nat} (h : rfindDot cs = some i) :
    pyStem cs = if 0 < i ∧ i + 1 < cs.length then cs.take i else cs := by
  unfold pyStem
  rw [h]

theorem pyStem_recordingName (k : Nat) : pyStem (recordingName k) = "slide_".data ++ pad3 k := by
  have hassoc : recordingName k = ("slide_".data ++ pad3 k) ++ ".mp3".data := rfl
  have hfind : rfindDot (("slide_".data ++ pad3 k) ++ ".mp3".data)
      = some (("slide_".data ++ pad3 k).length + 0) :=
    rfindDot_append (by decide) _
  have hlen : ("slide_".data ++ pad3 k).length = 6 + (pad3 k).length := by
    simp only [List.length_append, List.length_cons, List.length_nil]
  have hlen2 : ((("slide_".data ++ pad3 k) ++ ".mp3".data)).length
      = ("slide_".data ++ pad3 k).length + 4 := by
    simp only [List.length_append, List.length_cons, List.length_nil]
  rw [hassoc, pyStem_eq hfind]
  rw [if_pos ⟨by omega, by omega⟩]
  have := List.take_left ("slide_".data ++ pad3 k) (".mp3".data)
  simpa using this

theorem splitOnChar_no_sep {sep : Char} :
    ∀ B : List Char, (∀ c ∈ B, c ≠ sep) → splitOnChar sep B = [B] := by
  intro B h
  induction B with
  | nil => rfl
  | cons c B ih =>
    unfold splitOnChar
    rw [if_neg (h c (List.mem_cons_self c B))]
    rw [ih (fun x hx => h x (List.mem_cons_of_mem c hx))]

theorem splitOnChar_cons (sep c : Char) (rest : List Char) :
    splitOnChar sep (c :: rest) =
      if c = sep then [] :: splitOnChar sep rest
      else
        match splitOnChar sep rest with
        | [] => [[c]]
        | piece :: pieces => (c :: piece) :: pieces := by
  rw [splitOnChar]

theorem splitOnChar_append_sep {sep : Char} :
    ∀ P B : List Char, (∀ c ∈ P, c ≠ sep) →
      splitOnChar sep (P ++ sep :: B) = P :: splitOnChar sep B := by
  intro P
  induction P with
  | nil =>
    intro B _
    simp [splitOnChar]
  | cons c P ih =>
    intro B h
    show splitOnChar sep (c :: (P ++ sep :: B)) = (c :: P) :: splitOnChar sep B
    rw [splitOnChar_cons, if_neg (h c (List.mem_cons_self c P)),
      ih B (fun x hx => h x (List.mem_cons_of_mem c hx))]

theorem parseSlideNum_recordingName (k : Nat) :
    parseSlideNum (recordingName k) = some (k : Int) := by
  unfold parseSlideNum
  rw [pyStem_recordingName]
  have hsplit : "slide_".data ++ pad3 k = "slide".data ++ '_' :: pad3 k := rfl
  rw [hsplit, splitOnChar_append_sep "slide".data (pad3 k) (by decide)]
  rw [splitOnChar_no_sep (pad3 k)
    (fun c hc => isDigit_ne_underscore (mem_pad3_isDigit hc))]
  simpa using pyInt_pad3 k

theorem midOf_recordingName (k : Nat) : midOf (recordingName k) = pad3 k := by
  unfold midOf recordingName
  have hdrop :
      (("slide_".data ++ (pad3 k ++ ".mp3".data)).drop 6) = pad3 k ++ ".mp3".data := by
    have := List.drop_left ("slide_".data) (pad3 k ++ ".mp3".data)
    simpa using this
  have hlen :
      ("slide_".data ++ (pad3 k ++ ".mp3".data)).length - 10 = (pad3 k).length := by
    simp [List.length_append]
  rw [List.append_assoc, hdrop, hlen]
  have := List.take_left (pad3 k) (".mp3".data)
  simpa using this

theorem isRecordingName_recordingName (k : Nat) :
    isRecordingName (recordingName k) = true := by
  unfold isRecordingName
  rw [midOf_recordingName, digitsVal_pad3]
  simp

theorem isRecordingName_iff {nm : Name} :
    isRecordingName nm = true ↔ ∃ k : Nat, nm = recordingName k := by
  constructor
  · intro h
    exact ⟨digitsVal (midOf nm), of_decide_eq_true h⟩
  · rintro ⟨k, rfl⟩
    exact isRecordingName_recordingName k

theorem recordingName_inj {k k' : Nat} (h : recordingName k = recordingName k') :
    k = k' := by
  have h1 := parseSlideNum_recordingName k
  rw [h, parseSlideNum_recordingName] at h1
  have h2 := Option.some.inj h1
  exact_mod_cast h2.symm

theorem fileExists_iff_mem {d : Dir} {nm : Name} :
    fileExists d nm = true ↔ nm ∈ dirNames d := by
  induction d with
  | nil => simp [fileExists, lookupFile, dirNames]
  | cons e rest ih =>
    rcases e with ⟨nm', b⟩
    by_cases h : nm' = nm
    · subst h
      simp [fileExists, lookupFile, dirNames]
    · simp only [fileExists, lookupFile, if_neg h, dirNames, List.map_cons, List.mem_cons]
      rw [← dirNames]
      simp only [fileExists] at ih
      rw [ih]
      constructor
      · exact fun hm => Or.inr hm
      · rintro (hm | hm)
        · exact absurd hm.symm h
        · exact hm

theorem lookupFile_writeFile_self (d : Dir) (nm : Name) (b : Blob) :
    lookupFile (writeFile d nm b) nm = some b := by
  simp [writeFile, lookupFile]

theorem lookupFile_removeFile_ne {nm nm' : Name} (h : nm' ≠ nm) :
    ∀ d : Dir, lookupFile (removeFile d nm) nm' = lookupFile d nm' := by
  intro d
  induction d with
  | nil => rfl
  | cons e rest ih =>
    rcases e with ⟨a, b⟩
    by_cases ha : a = nm
    · subst ha
      have ha' : ¬ a = nm' := fun hc => h hc.symm
      simp [removeFile, lookupFile, ha', ih]
    · by_cases ha' : a = nm'
      · simp [removeFile, lookupFile, ha, ha', h, ih]
      · simp [removeFile, lookupFile, ha, ha', ih]

theorem lookupFile_writeFile_ne {d : Dir} {nm nm' : Name} (h : nm' ≠ nm) (b : Blob) :
    lookupFile (writeFile d nm b) nm' = lookupFile d nm' := by
  unfold writeFile
  rw [lookupFile]
  rw [if_neg (fun hc => h hc.symm)]
  exact lookupFile_removeFile_ne h d

theorem lookupFile_removeFile_self (d : Dir) (nm : Name) :
    lookupFile (removeFile d nm) nm = none := by
  induction d with
  | nil => rfl
  | cons e rest ih =>
    rcases e with ⟨a, b⟩
    by_cases ha : a = nm
    · simpa [removeFile, lookupFile, ha] using ih
    · simpa [removeFile, lookupFile, ha] using ih

theorem le_foldl_max : ∀ (xs : List Int) (x : Int), x ≤ xs.foldl max x := by
  intro xs
  induction xs with
  | nil => intro x; exact le_refl x
  | cons y ys ih =>
    intro x
    calc x ≤ max x y := le_max_left x y
    _ ≤ (y :: ys).foldl max x := by simpa [List.foldl_cons] using ih (max x y)

theorem foldl_max_le_of_mem :
    ∀ (xs : List Int) (x y : Int), y ∈ xs → y ≤ xs.foldl max x := by
  intro xs
  induction xs with
  | nil => intro x y h; simp at h
  | cons z zs ih =>
    intro x y h
    rcases List.mem_cons.1 h with rfl | h
    · calc y ≤ max x y := le_max_right x y
      _ ≤ zs.foldl max (max x y) := le_foldl_max zs (max x y)
      _ = (y :: zs).foldl max x := by simp [List.foldl_cons]
    · simpa [List.foldl_cons] using ih (max x z) y h

theorem foldl_max_mem : ∀ (xs : List Int) (x : Int), xs.foldl max x ∈ x :: xs := by
  intro xs
  induction xs with
  | nil => intro x; simp [List.foldl_nil]
  | cons y ys ih =>
    intro x
    have h := ih (max x y)
    rcases List.mem_cons.1 h with h | h
    · rcases max_choice x y with hm | hm
      · rw [List.foldl_cons, h, hm]
        exact List.mem_cons_self _ _
      · rw [List.foldl_cons, h, hm]
        exact List.mem_cons_of_mem _ (List.mem_cons_self _ _)
    · rw [List.foldl_cons]
      exact List.mem_cons_of_mem _ (List.mem_cons_of_mem _ h)

theorem listMaxI_mem {l : List Int} (h : l ≠ []) : listMaxI l ∈ l := by
  cases l with
  | nil => exact absurd rfl h
  | cons x xs => exact foldl_max_mem xs x

theorem le_listMaxI {l : List Int} {y : Int} (h : y ∈ l) : y ≤ listMaxI l := by
  cases l with
  | nil => simp at h
  | cons x xs =>
    rcases List.mem_cons.1 h with rfl | h
    · exact le_foldl_max xs y
    · exact foldl_max_le_of_mem xs x y h

theorem parseAll_recordings :
    ∀ files : List Name, (∀ nm ∈ files, isRecordingName nm = true) →
      parseAll files = some (files.map (fun nm => ((digitsVal (midOf nm) : Int)))) := by
  intro files
  induction files with
  | nil => intro _; rfl
  | cons nm rest ih =>
    intro h
    have hnm : nm = recordingName (digitsVal (midOf nm)) :=
      of_decide_eq_true (h nm (List.mem_cons_self nm rest))
    have hparse : parseSlideNum nm = some ((digitsVal (midOf nm) : Int)) := by
      conv_lhs => rw [hnm]
      rw [parseSlideNum_recordingName]
    have hrest := ih (fun x hx => h x (List.mem_cons_of_mem nm hx))
    unfold parseAll
    rw [hparse, hrest, List.map_cons]

theorem no_recording_of_hasRecording_false {d : Dir} (h : hasRecording d = false) :
    ∀ k : Nat, fileExists d (recordingName k) = false := by
  intro k
  cases hex : fileExists d (recordingName k)
  · rfl
  · exfalso
    have hmem : recordingName k ∈ dirNames d := fileExists_iff_mem.1 hex
    have : (dirNames d).any isRecordingName = true :=
      List.any_eq_true.2 ⟨recordingName k, hmem, isRecordingName_recordingName k⟩
    rw [hasRecording] at h
    rw [this] at h
    exact Bool.noConfusion h

theorem backupName_ne_recordingName (n m : Nat) : backupName n ≠ recordingName n := by
  intro h
  have hlen := congrArg List.length h
  simp only [backupName, recordingName, List.length_append, List.length_cons,
    List.length_nil] at hlen
  omega

theorem mem_removeFile {d : Dir} {nm : Name} {e : Name × Blob} :
    e ∈ removeFile d nm → e.1 ≠ nm := by
  induction d with
  | nil => intro h; simp [removeFile] at h
  | cons a rest ih =>
    intro h
    unfold removeFile at h
    by_cases ha : a.1 = nm
    · rw [if_pos ha] at h
      exact ih h
    · rw [if_neg ha] at h
      rcases List.mem_cons.1 h with rfl | h
      · exact ha
      · exact ih h

theorem countP_writeFile_self (d : Dir) (nm : Name) (b : Blob) :
    (writeFile d nm b).countP (fun e => decide (e.1 = nm)) = 1 := by
  unfold writeFile
  rw [List.countP_cons]
  have h0 : (removeFile d nm).countP (fun e => decide (e.1 = nm)) = 0 := by
    rw [List.countP_eq_zero]
    intro e he
    simpa using mem_removeFile he
  simp [h0]

/-- C4: after `save_recording` of a clip for slide `n`, the bytes stored at
the path derived from `n` are exactly the `convert_to_mp3` encoding of the
clip under the same configured bitrate, and the returned path is that
path. -/
theorem claim4_save_roundtrip (cfg : Config) (enc : EncodeFn) (d : Dir) (clip : Blob)
    (n : Nat) :
    lookupFile (save_recording cfg enc d clip n).1 (get_recording_path n)
      = some (convert_to_mp3 cfg enc clip)
    ∧ (save_recording cfg enc d clip n).2 = get_recording_path n :=
  ⟨lookupFile_writeFile_self d (get_recording_path n) _, rfl⟩

/-- C5: when the encoder raises on a blob, `convert_to_mp3` returns normally
with the original uncompressed blob unchanged. -/
theorem claim5_encode_fallback (cfg : Config) (enc : EncodeFn) (wav : Blob)
    (h : enc cfg.BITRATE wav = none) : convert_to_mp3 cfg enc wav = wav := by
  unfold convert_to_mp3
  rw [h]

theorem claim5_witness : convert_to_mp3 {} (fun _ _ => none) [1, 2, 3] = [1, 2, 3] :=
  claim5_encode_fallback {} (fun _ _ => none) [1, 2, 3] rfl

/-- C6: `delete_recording n` returns true exactly when a file existed at the
derived path, the path no longer exists afterwards when it returned true,
and a missing file is not an error: the state is returned unchanged with
`false`. -/
theorem claim6_delete_spec (d : Dir) (n : Nat) :
    ((delete_recording d n).2 = fileExists d (get_recording_path n))
    ∧ (fileExists d (get_recording_path n) = true →
        fileExists (delete_recording d n).1 (get_recording_path n) = false)
    ∧ (fileExists d (get_recording_path n) = false → delete_recording d n = (d, false)) := by
  unfold delete_recording
  by_cases h : fileExists d (get_recording_path n) = true
  · refine ⟨?_, ?_, ?_⟩
    · rw [if_pos h, h]
    · intro _
      rw [if_pos h]
      show fileExists (removeFile d (get_recording_path n)) (get_recording_path n) = false
      unfold fileExists
      rw [lookupFile_removeFile_self]
      rfl
    · intro hf
      rw [h] at hf
      exact absurd hf (by simp)
  · have hf : fileExists d (get_recording_path n) = false := by
      cases hx : fileExists d (get_recording_path n)
      · rfl
      · exact absurd hx h
    refine ⟨?_, ?_, ?_⟩
    · rw [if_neg h, hf]
    · intro hx
      exact absurd hx h
    · intro _
      rw [if_neg h]

theorem claim6_witness :
    (delete_recording [(recordingName 2, [7])] 2).2 = true
    ∧ fileExists (delete_recording [(recordingName 2, [7])] 2).1 (get_recording_path 2) = false
    ∧ delete_recording [] 2 = ([], false) := by
  refine ⟨?_, ?_, ?_⟩
  · rw [(claim6_delete_spec [(recordingName 2, [7])] 2).1]
    decide
  · exact (claim6_delete_spec [(recordingName 2, [7])] 2).2.1 (by decide)
  · exact (claim6_delete_spec [] 2).2.2 (by decide)

/-- C7: `backup_recording n` returns `none` and changes nothing when the
source recording is missing; when the source exists it writes the sibling
`_backup` file with byte-identical content (leaving the source in place) and
returns the backup path; re-saving and backing up again overwrites the
backup, and exactly one backup entry for `n` remains. -/
theorem claim7_backup_spec (cfg : Config) (enc : EncodeFn) (d : Dir) (n : Nat) :
    (lookupFile d (get_recording_path n) = none → backup_recording d n = (d, none))
    ∧ (∀ b, lookupFile d (get_recording_path n) = some b →
        (backup_recording d n).2 = some (backupName n)
        ∧ lookupFile (backup_recording d n).1 (backupName n) = some b
        ∧ lookupFile (backup_recording d n).1 (get_recording_path n) = some b)
    ∧ (∀ clip,
        lookupFile (backup_recording (save_recording cfg enc d clip n).1 n).1 (backupName n)
          = some (convert_to_mp3 cfg enc clip)
        ∧ (backup_recording (save_recording cfg enc d clip n).1 n).1.countP
            (fun e => decide (e.1 = backupName n)) = 1) := by
  refine ⟨?_, ?_, ?_⟩
  · intro h
    unfold backup_recording
    rw [h]
  · intro b h
    unfold backup_recording
    rw [h]
    refine ⟨rfl, lookupFile_writeFile_self _ _ _, ?_⟩
    show lookupFile (writeFile d (backupName n) b) (recordingName n) = some b
    rw [lookupFile_writeFile_ne (fun hc => backupName_ne_recordingName n n hc.symm) b]
    exact h
  · intro clip
    have hsave : lookupFile (save_recording cfg enc d clip n).1 (get_recording_path n)
        = some (convert_to_mp3 cfg enc clip) :=
      lookupFile_writeFile_self d (get_recording_path n) _
    unfold backup_recording
    rw [hsave]
    exact ⟨lookupFile_writeFile_self _ _ _, countP_writeFile_self _ _ _⟩

theorem claim7_witness :
    backup_recording [] 1 = ([], none)
    ∧ (backup_recording [(recordingName 1, [9])] 1).2 = some (backupName 1)
    ∧ lookupFile (backup_recording [(recordingName 1, [9])] 1).1 (backupName 1) = some [9]
    ∧ lookupFile (backup_recording [(recordingName 1, [9])] 1).1 (get_recording_path 1)
        = some [9]
    ∧ lookupFile
        (backup_recording (save_recording {} (fun _ b => some b) [(backupName 1, [9])] [4] 1).1 1).1
        (backupName 1) = some [4]
    ∧ (backup_recording (save_recording {} (fun _ b => some b) [(backupName 1, [9])] [4] 1).1 1).1.countP
        (fun e => decide (e.1 = backupName 1)) = 1 := by
  have h1 := (claim7_backup_spec {} (fun _ b => some b) [] 1).1 (by decide)
  have h2 := (claim7_backup_spec {} (fun _ b => some b) [(recordingName 1, [9])] 1).2.1 [9] (by decide)
  have h3 := (claim7_backup_spec {} (fun _ b => some b) [(backupName 1, [9])] 1).2.2 [4]
  exact ⟨h1, h2.1, h2.2.1, h2.2.2, h3.1, h3.2⟩

/-- C8: `stop_recording` called while the recording flag is false returns the
empty blob and zero duration and leaves the whole engine state unchanged. -/
theorem claim8_stop_noop (s : RecState) (now : Nat) (h : s.recording = false) :
    stop_recording s now = (s, [], 0) := by
  unfold stop_recording
  rw [if_pos h]

theorem claim8_witness :
    stop_recording
        { paHandle := true, stream := true, frames := [[5]], recording := false, start_time := 7 } 9
      = ({ paHandle := true, stream := true, frames := [[5]], recording := false, start_time := 7 },
          [], 0) :=
  claim8_stop_noop _ 9 rfl

/-- C9: in the entry point's settings mutation, audio quality `low` sets the
configured bitrate to `64k`, `medium` to `96k`, and `high` — which is the
default quality — to `128k`. -/
theorem claim9_quality_bitrate (cfg : Config) (output_dir : Option String) :
    (SlideRecorder_init cfg output_dir "low").BITRATE = "64k"
    ∧ (SlideRecorder_init cfg output_dir "medium").BITRATE = "96k"
    ∧ (SlideRecorder_init cfg output_dir "high").BITRATE = "128k"
    ∧ (SlideRecorder_init cfg output_dir defaultAudioQuality).BITRATE = "128k" := by
  refine ⟨?_, ?_, ?_, ?_⟩
  · unfold SlideRecorder_init
    rw [if_pos rfl]
  · unfold SlideRecorder_init
    rw [if_neg (by decide), if_pos rfl]
  · unfold SlideRecorder_init
    rw [if_neg (by decide), if_neg (by decide)]
  · unfold SlideRecorder_init defaultAudioQuality
    rw [if_neg (by decide), if_neg (by decide)]

/-- C10: the parameters `start_recording` passes to the stream-open call do
not depend on the selected-input-device setting: the device index mutated by
`set_input_device` is never passed (the `input_device_index` argument stays
unset), so runs differing only in that setting behave identically. -/
theorem claim10_device_independent (cfg : Config) (dev1 dev2 : Option Nat) (s : RecState)
    (initOk openOk : Bool) (now : Nat) (devInfo : Nat → Option Nat) (i : Nat) :
    start_recording { cfg with DEFAULT_INPUT_DEVICE := dev1 } s initOk openOk now
      = start_recording { cfg with DEFAULT_INPUT_DEVICE := dev2 } s initOk openOk now
    ∧ (openParams cfg).input_device_index = none
    ∧ openParams (set_input_device cfg devInfo i).1 = openParams cfg := by
  refine ⟨rfl, rfl, ?_⟩
  cases hdev : devInfo i with
  | none => simp [set_input_device, hdev]
  | some ch =>
    by_cases hch : 0 < ch
    · simp [set_input_device, hdev, hch, openParams]
    · simp [set_input_device, hdev, hch]

/-- C3 counterexample: start a recording from the initial engine state, read
one chunk `[1, 2]`, then stop successfully (the recording flag was set and
`stop_recording` returns normally).  The resulting state keeps the captured
frames in the buffer: `frames = [[1, 2]] ≠ []`, refuting the claimed
invariant that the buffer is empty after every successful stop (and hence
also before the next start, since nothing clears it in between). -/
theorem claim3_counterexample :
    stop_recording (record_chunk {} (start_recording {} initState true true 0).1 true [1, 2] 0).1 5
      = ({ paHandle := true, stream := false, frames := [[1, 2]], recording := false,
            start_time := 0 },
          [1, 2], 5) := by
  decide

/-- C3 amended: every `start_recording` that proceeds past the
already-recording guard and whose device reinitialization succeeds resets
the frame buffer to empty before opening the stream — also when the open
then fails — and on success sets the recording flag; a start whose
reinitialization raises leaves the old frames in place.  After every
successful `stop_recording` the recording flag is false and the stream
released, but the frame buffer retains the session's frames until the next
such start clears it. -/
theorem claim3_frames_amended (cfg : Config) (s : RecState) (openOk : Bool) (now now' : Nat) :
    (s.recording = false →
      (start_recording cfg s true openOk now).1.frames = []
      ∧ (openOk = true → (start_recording cfg s true openOk now).1.recording = true))
    ∧ (s.recording = true →
      (stop_recording s now').1.recording = false
      ∧ (stop_recording s now').1.frames = s.frames
      ∧ (stop_recording s now').1.stream = false)
    ∧ (s.recording = false →
      (start_recording cfg s false openOk now).1.frames = s.frames) := by
  refine ⟨?_, ?_, ?_⟩
  · intro h1
    unfold start_recording
    rw [if_neg (by simp [h1])]
    rw [if_neg (by simp)]
    cases openOk
    · simp [initializePyaudio, cleanup]
    · simp [initializePyaudio]
  · intro h
    unfold stop_recording
    rw [if_neg (by simp [h])]
    simp [cleanupStream]
  · intro h1
    unfold start_recording
    rw [if_neg (by simp [h1]), if_pos rfl]
    simp [cleanup]

theorem claim3_witness :
    (start_recording {} initState true false 3).1.frames = []
    ∧ (start_recording {} initState true true 3).1.frames = []
    ∧ (start_recording {} initState true true 3).1.recording = true
    ∧ ((stop_recording
          { paHandle := true, stream := true, frames := [[9]], recording := true,
            start_time := 1 } 4).1.recording = false
      ∧ (stop_recording
          { paHandle := true, stream := true, frames := [[9]], recording := true,
            start_time := 1 } 4).1.frames = [[9]]
      ∧ (stop_recording
          { paHandle := true, stream := true, frames := [[9]], recording := true,
            start_time := 1 } 4).1.stream = false)
    ∧ (start_recording {}
        { paHandle := true, stream := false, frames := [[7]], recording := false,
          start_time := 0 } false true 5).1.frames = [[7]] := by
  refine ⟨?_, ?_, ?_, ?_, ?_⟩
  · exact ((claim3_frames_amended {} initState false 3 0).1 rfl).1
  · exact ((claim3_frames_amended {} initState true 3 0).1 rfl).1
  · exact ((claim3_frames_amended {} initState true 3 0).1 rfl).2 rfl
  · exact (claim3_frames_amended {}
      { paHandle := true, stream := true, frames := [[9]], recording := true,
        start_time := 1 } true 0 4).2.1 rfl
  · exact (claim3_frames_amended {}
      { paHandle := true, stream := false, frames := [[7]], recording := false,
        start_time := 0 } true 5 0).2.2 rfl

/-- C1 counterexample: a directory whose only file is the backup
`slide_001_backup.mp3` contains no recording file (`hasRecording` is false;
see `no_recording_of_hasRecording_false`), yet the glob `slide_*.mp3` matches
the backup, its embedded number parses to 1, and `get_next_slide_number`
returns 2 instead of the claimed 1. -/
theorem claim1_counterexample :
    get_next_slide_number [(backupName 1, [0])] = some 2
    ∧ hasRecording [(backupName 1, [0])] = false :=
  ⟨by decide, by decide⟩

/-- C1 amended: restricted to directory states in which every file matching
the glob `slide_*.mp3` is a canonical recording file `slide_{NNN}.mp3` (in
particular, no `_backup` files), `get_next_slide_number` returns 1 when no
recording exists and `m + 1` whenever slide `m` exists and every existing
slide number is at most `m`. -/
theorem claim1_next_slide_amended (d : Dir)
    (hglob : ∀ nm ∈ dirNames d, globSlideMp3 nm = true → isRecordingName nm = true) :
    (hasRecording d = false → get_next_slide_number d = some 1)
    ∧ (∀ m : Nat, fileExists d (recordingName m) = true →
        (∀ k : Nat, fileExists d (recordingName k) = true → k ≤ m) →
        get_next_slide_number d = some ((m : Int) + 1)) := by
  constructor
  · intro h
    have hfiles : (dirNames d).filter globSlideMp3 = [] := by
      rw [List.eq_nil_iff_forall_not_mem]
      intro nm hnm
      have hmem := List.mem_filter.1 hnm
      have hrec := hglob nm hmem.1 hmem.2
      have hany : hasRecording d = true := List.any_eq_true.2 ⟨nm, hmem.1, hrec⟩
      rw [h] at hany
      exact Bool.noConfusion hany
    unfold get_next_slide_number
    rw [hfiles]
    rfl
  · intro m hm hub
    have hmem : recordingName m ∈ dirNames d := fileExists_iff_mem.1 hm
    have hmf : recordingName m ∈ (dirNames d).filter globSlideMp3 :=
      List.mem_filter.2 ⟨hmem, glob_recordingName m⟩
    have hfne : (dirNames d).filter globSlideMp3 ≠ [] := by
      intro hc
      rw [hc] at hmf
      exact List.not_mem_nil _ hmf
    have hrecs : ∀ nm ∈ (dirNames d).filter globSlideMp3, isRecordingName nm = true := by
      intro nm hnm
      have hx := List.mem_filter.1 hnm
      exact hglob nm hx.1 hx.2
    have hparse := parseAll_recordings _ hrecs
    have hnsne : (((dirNames d).filter globSlideMp3).map
        (fun nm => ((digitsVal (midOf nm) : Int)))) ≠ [] := by
      intro hc
      exact hfne (List.map_eq_nil.1 hc)
    have hmax_mem := listMaxI_mem hnsne
    obtain ⟨nm0, hnm0f, hnm0v⟩ := List.mem_map.1 hmax_mem
    have hnm0 : nm0 = recordingName (digitsVal (midOf nm0)) :=
      of_decide_eq_true (hrecs nm0 hnm0f)
    have hnm0d : fileExists d nm0 = true :=
      fileExists_iff_mem.2 (List.mem_filter.1 hnm0f).1
    have hk_le : digitsVal (midOf nm0) ≤ m := by
      apply hub
      rw [← hnm0]
      exact hnm0d
    have hm_in : ((m : Int)) ∈ (((dirNames d).filter globSlideMp3).map
        (fun nm => ((digitsVal (midOf nm) : Int)))) := by
      refine List.mem_map.2 ⟨recordingName m, hmf, ?_⟩
      rw [midOf_recordingName, digitsVal_pad3]
    have h1 : listMaxI (((dirNames d).filter globSlideMp3).map
        (fun nm => ((digitsVal (midOf nm) : Int)))) ≤ (m : Int) := by
      rw [← hnm0v]
      exact_mod_cast hk_le
    have h2 : (m : Int) ≤ listMaxI (((dirNames d).filter globSlideMp3).map
        (fun nm => ((digitsVal (midOf nm) : Int)))) := le_listMaxI hm_in
    have hmax := le_antisymm h1 h2
    have hie : ((dirNames d).filter globSlideMp3).isEmpty = false := by
      cases hf : (dirNames d).filter globSlideMp3 with
      | nil => exact absurd hf hfne
      | cons a l => rfl
    unfold get_next_slide_number
    rw [if_neg (by rw [hie]; simp)]
    rw [hparse]
    show some (listMaxI (((dirNames d).filter globSlideMp3).map
        (fun nm => ((digitsVal (midOf nm) : Int)))) + 1) = some ((m : Int) + 1)
    rw [hmax]

theorem claim1_witness :
    get_next_slide_number [("notes.txt".data, [])] = some 1
    ∧ get_next_slide_number [(recordingName 1, [0]), (recordingName 3, [1])] = some 4 := by
  constructor
  · exact (claim1_next_slide_amended [("notes.txt".data, [])] (by decide)).1 (by decide)
  · have hub : ∀ k : Nat,
        fileExists [(recordingName 1, [0]), (recordingName 3, [1])] (recordingName k) = true →
        k ≤ 3 := by
      intro k hk
      have hmem := fileExists_iff_mem.1 hk
      simp only [dirNames, List.map_cons, List.map_nil, List.mem_cons,
        List.not_mem_nil, or_false] at hmem
      rcases hmem with h1 | h1
      · have := recordingName_inj h1
        omega
      · have := recordingName_inj h1
        omega
    have h := (claim1_next_slide_amended [(recordingName 1, [0]), (recordingName 3, [1])]
      (by decide)).2 3 (by decide) hub
    have h4 : (((3 : Nat) : Int) + 1) = 4 := by norm_num
    rw [h4] at h
    exact h

/-- C2 counterexample: with the recording `slide_001.mp3` and its backup
`slide_001_backup.mp3` both present, the glob `slide_*.mp3` also matches the
backup, whose embedded number parses to 1 again, so `get_recording_list`
returns `[1, 1]` — not a duplicate-free set. -/
theorem claim2_counterexample :
    get_recording_list [(recordingName 1, [0]), (backupName 1, [1])] = some [1, 1]
    ∧ ¬ ([(1 : Int), 1].Nodup) :=
  ⟨by decide, by decide⟩

/-- C2 amended: restricted to directory states (with distinct file names) in
which every file matching the glob `slide_*.mp3` is a canonical recording
file `slide_{NNN}.mp3` (in particular, no `_backup` files),
`get_recording_list` succeeds and returns a strictly ascending list whose
members are exactly the slide numbers with an existing recording file. -/
theorem claim2_recording_list_amended (d : Dir)
    (hglob : ∀ nm ∈ dirNames d, globSlideMp3 nm = true → isRecordingName nm = true)
    (hnodup : (dirNames d).Nodup) :
    (get_recording_list d).isSome = true
    ∧ ∀ l, get_recording_list d = some l →
        List.Sorted (fun a b => a < b) l
        ∧ ∀ e : Int, (e ∈ l ↔ ∃ k : Nat, e = (k : Int)
            ∧ fileExists d (recordingName k) = true) := by
  have hrecs : ∀ nm ∈ (dirNames d).filter globSlideMp3, isRecordingName nm = true := by
    intro nm hnm
    have hx := List.mem_filter.1 hnm
    exact hglob nm hx.1 hx.2
  have hparse := parseAll_recordings _ hrecs
  have hlist : get_recording_list d
      = some (List.insertionSort (fun a b => a ≤ b)
          (((dirNames d).filter globSlideMp3).map
            (fun nm => ((digitsVal (midOf nm) : Int))))) := by
    unfold get_recording_list
    rw [hparse]
    rfl
  constructor
  · rw [hlist]
    rfl
  · intro l hl
    rw [hlist] at hl
    have hleq := Option.some.inj hl
    subst hleq
    have hfnodup : ((dirNames d).filter globSlideMp3).Nodup := hnodup.filter _
    have hninj : ∀ x ∈ (dirNames d).filter globSlideMp3,
        ∀ y ∈ (dirNames d).filter globSlideMp3,
        ((digitsVal (midOf x) : Int)) = ((digitsVal (midOf y) : Int)) → x = y := by
      intro x hx y hy hxy
      have hx' : x = recordingName (digitsVal (midOf x)) := of_decide_eq_true (hrecs x hx)
      have hy' : y = recordingName (digitsVal (midOf y)) := of_decide_eq_true (hrecs y hy)
      have hval : digitsVal (midOf x) = digitsVal (midOf y) := by exact_mod_cast hxy
      rw [hx', hy', hval]
    have hnsnodup : ((((dirNames d).filter globSlideMp3)).map
        (fun nm => ((digitsVal (midOf nm) : Int)))).Nodup :=
      List.Nodup.map_on hninj hfnodup
    have hperm := List.perm_insertionSort (fun a b => a ≤ b)
      ((((dirNames d).filter globSlideMp3)).map (fun nm => ((digitsVal (midOf nm) : Int))))
    refine ⟨?_, ?_⟩
    · have hs := List.sorted_insertionSort (fun a b => a ≤ b)
        ((((dirNames d).filter globSlideMp3)).map (fun nm => ((digitsVal (midOf nm) : Int))))
      have hn := (hperm.nodup_iff).2 hnsnodup
      exact List.Sorted.lt_of_le hs hn
    · intro e
      rw [hperm.mem_iff, List.mem_map]
      constructor
      · rintro ⟨nm, hnmf, rfl⟩
        refine ⟨digitsVal (midOf nm), rfl, ?_⟩
        have hnm' := of_decide_eq_true (hrecs nm hnmf)
        rw [← hnm']
        exact fileExists_iff_mem.2 (List.mem_filter.1 hnmf).1
      · rintro ⟨k, rfl, hex⟩
        refine ⟨recordingName k, ?_, ?_⟩
        · exact List.mem_filter.2 ⟨fileExists_iff_mem.1 hex, glob_recordingName k⟩
        · rw [midOf_recordingName, digitsVal_pad3]

theorem claim2_witness :
    get_recording_list [(recordingName 3, [0]), (recordingName 1, [1])] = some [1, 3]
    ∧ List.Sorted (fun a b => a < b) [(1 : Int), 3]
    ∧ fileExists [(recordingName 3, [0]), (recordingName 1, [1])] (recordingName 1) = true := by
  have h := claim2_recording_list_amended [(recordingName 3, [0]), (recordingName 1, [1])]
    (by decide) (by decide)
  have hl : get_recording_list [(recordingName 3, [0]), (recordingName 1, [1])]
      = some [1, 3] := by decide
  have h2 := h.2 [1, 3] hl
  refine ⟨hl, h2.1, ?_⟩
  have h3 := (h2.2 1).mp (by decide)
  rcases h3 with ⟨k, hk, hex⟩
  have hk1 : k = 1 := by exact_mod_cast hk.symm
  rw [hk1] at hex
  exact hex

